import Mathlib

/-!
Verification of the SFX-suite master/worker dispatch scheduler.

Shallow embedding of the three MPI entry points of the repository:
`batch_hit_finder.py`, `util/batch_peak2cxi.py`, `util/batch_peak_powder.py`.
The master loops are modelled as state machines over a per-worker request
table; the non-deterministic arrival of worker results is captured by an
oracle `Nat → Nat → Bool` telling, for each polling pass and each worker,
whether that worker's outstanding non-blocking receive has completed.
Python runtime errors (IndexError on `jobs[job_id]`, TypeError on
`results += None` when a completed request is tested again, pandas KeyError
on an empty result frame, ZeroDivisionError) are modelled as `none`.
-/

namespace SFX

/-- One work unit (a frame record): its identity and the `nb_peak`
count the kernel attaches to it. -/
structure Frame where
  fid : Nat
  nbPeak : Nat
deriving DecidableEq, Repr

/-- State of a worker's entry in the master's `reqs` dict.
`idle`: no receive ever armed; `armed j`: a non-blocking receive armed for
the result of job `j`; `consumed`: the request completed and was already
tested once (MPI sets it to the null request, a further `test` yields
`(True, None)`). -/
inductive Req where
  | idle
  | armed (jobIdx : Nat)
  | consumed
deriving DecidableEq, Repr

/-- Whether a request slot currently has an outstanding receive. -/
def isArmed : Req → Bool
  | Req.armed _ => true
  | _ => false

/-- Instrumentation events recorded by the model, in program order. -/
inductive Event where
  | sendJob (slave jobIdx : Nat)
  | arm (slave : Nat)
  | completeRecv (slave jobIdx : Nat)
  | sendStop (slave : Nat)
deriving DecidableEq, Repr

/-- A persisted progress snapshot (`stat.yml` write) of the steady-state
loop of `batch_hit_finder.py` (lines 85-103). -/
structure Snap where
  jobIdAt : Nat
  pct : Rat
  hits : Nat
  frames : Nat
  rate : Rat
deriving DecidableEq, Repr

/-- The final `stat.yml` write (lines 125-139). -/
structure FinalStat where
  progress : String
  hits : Nat
  frames : Nat
  rate : Rat
  totalJobs : Nat
deriving DecidableEq, Repr

/-- Master-side state of `master_run` in `batch_hit_finder.py`:
`jobId` is the `job_id` counter, `reqs` the per-slave request dict,
`results` the flat-collected unit list.  `collected`, `trace`,
`snapshots`, `passEnds` and `viol` are instrumentation: job indices in
receipt order, the event log, the snapshots written so far, the value of
`job_id` at the end of each steady polling pass, and whether a receive
was ever armed on a slot that still had one outstanding. -/
structure MState where
  jobId : Nat
  reqs : Nat → Req
  results : List Frame
  collected : List Nat
  trace : List Event
  snapshots : List Snap
  passEnds : List Nat
  viol : Bool

def initState : MState :=
  { jobId := 0, reqs := fun _ => Req.idle, results := [], collected := [],
    trace := [], snapshots := [], passEnds := [], viol := false }

def setReq (f : Nat → Req) (s : Nat) (r : Req) : Nat → Req :=
  fun t => if t = s then r else f t

/-- `comm.isend(jobs[job_id], dest=slave); reqs[slave] = comm.irecv(...);
job_id += 1` — the dispatch step shared by saturation (lines 61-66) and the
steady loop (lines 77-80).  The `viol` update is instrumentation: it fires
iff a receive is armed while one is still outstanding on that slot. -/
def dispatchTo (s : Nat) (st : MState) : MState :=
  { st with
    jobId := st.jobId + 1,
    reqs := setReq st.reqs s (Req.armed st.jobId),
    trace := st.trace ++ [Event.sendJob s st.jobId, Event.arm s],
    viol := st.viol || isArmed (st.reqs s) }

/-- `results += result` after a successful `test()` on slave `s` armed for
job `j`; the request object becomes the null request (`consumed`).
`ann j` is the annotated payload the worker returns for job `j`. -/
def steadyCollect (ann : Nat → List Frame) (s j : Nat) (st : MState) : MState :=
  { st with
    results := st.results ++ ann j,
    collected := st.collected ++ [j],
    reqs := setReq st.reqs s Req.consumed,
    trace := st.trace ++ [Event.completeRecv s j] }

/-- `stop = True; comm.isend(stop, dest=slave)` in the steady loop's else
branch (lines 82-84): a stop flag is sent, the slave is not removed from
the polling list and its request slot keeps the consumed request. -/
def steadyStopMark (s : Nat) (st : MState) : MState :=
  { st with trace := st.trace ++ [Event.sendStop s] }

/-- Drain-phase completion handling (lines 110-114): collect the result,
then send the stop flag. -/
def drainCollect (ann : Nat → List Frame) (s j : Nat) (st : MState) : MState :=
  steadyStopMark s (steadyCollect ann s j st)

/-- Saturation phase of `batch_hit_finder.py` master_run (lines 61-66):
`for slave in slaves: comm.isend(jobs[job_id], dest=slave); ...; job_id += 1`.
There is no bound check on `jobs[job_id]`: when the workers outnumber the
jobs this raises IndexError, modelled as `none`. -/
def satHF (nbJobs : Nat) : List Nat → MState → Option MState
  | [], st => some st
  | s :: rest, st =>
    if st.jobId < nbJobs then
      satHF nbJobs rest (dispatchTo s st)
    else
      none

/-- One `for slave in slaves` pass of the steady-state loop
(lines 70-84).  `p` is the polling-pass counter consumed by the oracle.
Testing a non-armed request returns `(True, None)` and the subsequent
`results += None` raises TypeError, modelled as `none`. -/
def steadyPassHF (ann : Nat → List Frame) (oracle : Nat → Nat → Bool)
    (nbJobs p : Nat) : List Nat → MState → Option MState
  | [], st => some st
  | s :: rest, st =>
    match st.reqs s with
    | Req.armed j =>
      if oracle p s then
        let st1 := steadyCollect ann s j st
        if st1.jobId < nbJobs then
          steadyPassHF ann oracle nbJobs p rest (dispatchTo s st1)
        else
          steadyPassHF ann oracle nbJobs p rest (steadyStopMark s st1)
      else
        steadyPassHF ann oracle nbJobs p rest st
    | _ => none

/-- The periodic snapshot step at the bottom of the while body
(lines 85-103).  Python evaluates `job_id % update_freq` (ZeroDivisionError
when the frequency is 0), then `float(job_id)/nb_jobs` (ZeroDivisionError
when there are no jobs), then builds a DataFrame from `results` and indexes
column `nb_peak` (KeyError when no results have arrived yet); each of these
crashes is `none`.  The `passEnds` append is instrumentation recording
`job_id` at the end of every polling pass. -/
def passEndMark (st : MState) : MState :=
  { st with passEnds := st.passEnds ++ [st.jobId] }

/-- The snapshot record built from the current counters (lines 87-100). -/
def mkSnap (minPeak nbJobs : Nat) (st : MState) : Snap :=
  { jobIdAt := st.jobId,
    pct := (st.jobId : Rat) / (nbJobs : Rat) * 100,
    hits := st.results.countP (fun u => decide (minPeak ≤ u.nbPeak)),
    frames := st.results.length,
    rate := ((st.results.countP fun u => decide (minPeak ≤ u.nbPeak) : Nat) : Rat)
              / (st.results.length : Rat) * 100 }

def snapAdd (minPeak nbJobs : Nat) (st : MState) : MState :=
  { st with snapshots := st.snapshots ++ [mkSnap minPeak nbJobs st] }

def snapStep (minPeak updateFreq nbJobs : Nat) (st : MState) : Option MState :=
  if updateFreq = 0 then none
  else if st.jobId % updateFreq = 0 then
    if nbJobs = 0 then none
    else if st.results.length = 0 then none
    else some (snapAdd minPeak nbJobs (passEndMark st))
  else some (passEndMark st)

/-- `while job_id < nb_jobs:` (lines 67-103), with a fuel bound on the
number of polling passes; running out of fuel means the run did not
complete.  Returns the pass counter together with the state. -/
def steadyLoopHF (ann : Nat → List Frame) (oracle : Nat → Nat → Bool)
    (minPeak updateFreq nbJobs : Nat) (slaves : List Nat) :
    Nat → Nat → MState → Option (Nat × MState)
  | 0, _, _ => none
  | fuel + 1, p, st =>
    if st.jobId < nbJobs then
      match steadyPassHF ann oracle nbJobs p slaves st with
      | none => none
      | some st1 =>
        match snapStep minPeak updateFreq nbJobs st1 with
        | none => none
        | some st2 => steadyLoopHF ann oracle minPeak updateFreq nbJobs slaves fuel (p + 1) st2
    else
      some (p, st)

/-- One `for slave in slaves` pass of the drain loop (lines 108-116),
with Python's list-iterator semantics made explicit: the iterator keeps an
index `idx` into the current list, and `slaves.remove(slave)` shifts the
remaining elements left under it, so the element after a removed one is
skipped.  `gas` bounds the number of iterator steps; each step increases
`idx` by one and never lengthens the list, so the initial `gas =
slaves.length` can never run out (the `none` at 0 is unreachable). -/
def drainIterHF (ann : Nat → List Frame) (oracle : Nat → Nat → Bool) (p : Nat) :
    Nat → List Nat → Nat → MState → Bool → Option (List Nat × MState × Bool)
  | 0, slaves, idx, st, allDone =>
    if idx < slaves.length then none else some (slaves, st, allDone)
  | gas + 1, slaves, idx, st, allDone =>
    if h : idx < slaves.length then
      let s := slaves.get ⟨idx, h⟩
      match st.reqs s with
      | Req.armed j =>
        if oracle p s then
          drainIterHF ann oracle p gas (slaves.erase s) (idx + 1)
            (drainCollect ann s j st) allDone
        else
          drainIterHF ann oracle p gas slaves (idx + 1) st false
      | _ => none
    else
      some (slaves, st, allDone)

/-- `all_done = False; while not all_done:` (lines 105-116).  Each pass
starts with `all_done = True`; a slave whose request has not completed
clears it. -/
def drainLoopHF (ann : Nat → List Frame) (oracle : Nat → Nat → Bool) :
    Nat → Nat → List Nat → MState → Option MState
  | 0, _, _, _ => none
  | fuel + 1, p, slaves, st =>
    match drainIterHF ann oracle p slaves.length slaves 0 st true with
    | none => none
    | some (slaves1, st1, allDone) =>
      if allDone then some st1 else drainLoopHF ann oracle fuel (p + 1) slaves1 st1

/-- The final stat write (lines 120-139): builds a DataFrame from
`results` (KeyError on the `nb_peak` column when it is empty, and the hit
rate would divide by zero), computes the hit count and rate, and writes
`progress: done`. -/
def finalizeHF (minPeak nbJobs : Nat) (st : MState) : Option FinalStat :=
  if st.results.length = 0 then none
  else some
    { progress := "done",
      hits := st.results.countP (fun u => decide (minPeak ≤ u.nbPeak)),
      frames := st.results.length,
      rate := ((st.results.countP fun u => decide (minPeak ≤ u.nbPeak) : Nat) : Rat)
                / (st.results.length : Rat) * 100,
      totalJobs := nbJobs }

/-- `slaves = list(range(1, size))` (line 59). -/
def slavesOf (size : Nat) : List Nat := List.range' 1 (size - 1)

/-- The whole `master_run` of `batch_hit_finder.py`: saturation, steady
loop, drain, finalize.  `ann j` is the annotated job the worker sends back
for job index `j`; `oracle p s` tells whether slave `s`'s outstanding
receive has completed by polling pass `p`; `fuel` bounds the number of
polling passes of each while loop. -/
def masterRunHF (jobs : List (List Frame)) (ann : Nat → List Frame)
    (minPeak updateFreq size : Nat) (oracle : Nat → Nat → Bool) (fuel : Nat) :
    Option (MState × FinalStat) :=
  match satHF jobs.length (slavesOf size) initState with
  | none => none
  | some st0 =>
    match steadyLoopHF ann oracle minPeak updateFreq jobs.length (slavesOf size) fuel 0 st0 with
    | none => none
    | some (p1, st1) =>
      match drainLoopHF ann oracle fuel p1 (slavesOf size) st1 with
      | none => none
      | some st2 =>
        match finalizeHF minPeak jobs.length st2 with
        | none => none
        | some fs => some (st2, fs)

/-- Total unit count of a job list, `nb_frames` of `collect_jobs`. -/
def totalUnits (jobs : List (List Frame)) : Nat := (jobs.map List.length).sum

/- Projections of a run result, used to state claims without comparing
whole states (whose request table is a function). -/

def resultsOf : Option (MState × FinalStat) → List Frame
  | some (st, _) => st.results
  | none => []

def collectedOf : Option (MState × FinalStat) → List Nat
  | some (st, _) => st.collected
  | none => []

def traceOf : Option (MState × FinalStat) → List Event
  | some (st, _) => st.trace
  | none => []

def violOf : Option (MState × FinalStat) → Bool
  | some (st, _) => st.viol
  | none => false

def snapsOf : Option (MState × FinalStat) → List Snap
  | some (st, _) => st.snapshots
  | none => []

def snapIdsOf (r : Option (MState × FinalStat)) : List Nat :=
  (snapsOf r).map Snap.jobIdAt

def passEndsOf : Option (MState × FinalStat) → List Nat
  | some (st, _) => st.passEnds
  | none => []

def jobIdOf : Option (MState × FinalStat) → Nat
  | some (st, _) => st.jobId
  | none => 0

def progressOf : Option (MState × FinalStat) → Option String
  | some (_, fs) => some fs.progress
  | none => none

def hitsOf : Option (MState × FinalStat) → Nat
  | some (_, fs) => fs.hits
  | none => 0

def framesOf : Option (MState × FinalStat) → Nat
  | some (_, fs) => fs.frames
  | none => 0

def rateOf : Option (MState × FinalStat) → Rat
  | some (_, fs) => fs.rate
  | none => 0

/- Concrete scenario for the hit-finder drain bug: 2 workers, 2
single-frame jobs, both workers' results ready in the same drain polling
pass.  `slaves.remove(slave)` inside `for slave in slaves` shifts worker 2
under the iterator, which skips it; `all_done` stays True and the run
finalizes with worker 2's result dropped and no stop flag sent to it. -/

def jobsAB : List (List Frame) := [[⟨0, 0⟩], [⟨1, 0⟩]]

def annAB : Nat → List Frame := fun j => if j = 0 then [⟨0, 3⟩] else [⟨1, 4⟩]

def oracleTrue : Nat → Nat → Bool := fun _ _ => true

/-- Claim C1: the claim says every unit produced by the job source is
counted exactly once in the final aggregate, for every completion order of
a completing run.  The hit-finder code violates it: with 2 workers and 2
one-frame jobs, both results ready in the same drain pass, the run
completes (it reaches the final write) having collected only 1 of the 2
units — worker 2 is skipped because the drain removes elements of `slaves`
while iterating over it. -/
theorem claim1_drain_drops_results :
    totalUnits jobsAB = 2 ∧
    (masterRunHF jobsAB annAB 1 10 3 oracleTrue 10).isSome = true ∧
    resultsOf (masterRunHF jobsAB annAB 1 10 3 oracleTrue 10) = [⟨0, 3⟩] := by
  refine ⟨rfl, rfl, rfl⟩

/-- Claim C3: the claim says the final snapshot carries `progress = "done"`
only if every worker slot was drained (final result received and stop flag
sent).  Same run as the C1 scenario: the master writes `progress = "done"`
although worker 2 never had its final result received (no completeRecv
event) and never received a stop flag (no sendStop event). -/
theorem claim3_done_without_drain :
    progressOf (masterRunHF jobsAB annAB 1 10 3 oracleTrue 10) = some "done" ∧
    (traceOf (masterRunHF jobsAB annAB 1 10 3 oracleTrue 10)).count (Event.completeRecv 2 1) = 0 ∧
    (traceOf (masterRunHF jobsAB annAB 1 10 3 oracleTrue 10)).count (Event.sendStop 2) = 0 := by
  refine ⟨rfl, by decide, by decide⟩

/-- Saturation phase of `util/batch_peak2cxi.py` master_run (lines 65-73),
returning the list of (slave, payload) messages sent.  The code computes a
dummy job (`job = jobs[job_id] if job_id < nb_jobs else []`) but then
sends `jobs[job_id]` unguarded, so the dummy is dead code and the indexing
raises IndexError (`none`) when the workers outnumber the jobs. -/
def p2cSaturate (jobs : List (List Frame)) : List Nat → Nat → Option (List (Nat × List Frame))
  | [], _ => some []
  | s :: rest, jobId =>
    let _job := if jobId < jobs.length then jobs.getD jobId [] else []
    match jobs.get? jobId with
    | none => none
    | some sent =>
      match p2cSaturate jobs rest (jobId + 1) with
      | none => none
      | some tl => some ((s, sent) :: tl)

/-- Saturation phase of `util/batch_peak_powder.py` master_run
(lines 59-67): the same dummy-job guard, but here the guarded `job` is the
value actually sent, so an extra worker receives the empty placeholder. -/
def powderSaturate (jobs : List (List Frame)) : List Nat → Nat → List (Nat × List Frame)
  | [], _ => []
  | s :: rest, jobId =>
    let job := if jobId < jobs.length then jobs.getD jobId [] else []
    (s, job) :: powderSaturate jobs rest (jobId + 1)

def jA : List Frame := [⟨0, 5⟩]

def jB : List Frame := [⟨1, 7⟩]

/-- Claim C4: the claim says that during saturation every worker either
gets a real job or an empty placeholder, a receive is armed either way,
and no out-of-range job index is ever accessed.  Only the powder variant
does this.  With 3 workers and 2 jobs, the hit-finder saturation indexes
`jobs[2]` directly (IndexError), the peak2cxi saturation computes the
placeholder but sends the unguarded `jobs[job_id]` (IndexError), while the
powder saturation sends the two jobs and then the placeholder. -/
theorem claim4_saturation_out_of_range :
    (satHF 2 [1, 2, 3] initState).isSome = false ∧
    p2cSaturate [jA, jB] [1, 2, 3] 0 = none ∧
    powderSaturate [jA, jB] [1, 2, 3] 0 = [(1, jA), (2, jB), (3, [])] := by
  refine ⟨rfl, rfl, by decide⟩

/-- Result of the `if size == 1` guard in each `__main__` block. -/
inductive GateResult where
  | exited (msg : String) (code : Nat)
  | proceed
deriving DecidableEq, Repr

/-- Python's `sys.exit(arg)`: with no argument (`arg = None`) the process
exit status is 0; an integer argument becomes the exit status. -/
def sysExitStatus (arg : Option Nat) : Nat := arg.getD 0

/-- `batch_hit_finder.py` lines 193-195: `if size == 1: print(...); sys.exit()`. -/
def gateHF (size : Nat) : GateResult :=
  if size = 1 then
    GateResult.exited "Run batch hit finder with at least 2 processes!" (sysExitStatus none)
  else GateResult.proceed

/-- `util/batch_peak2cxi.py` lines 188-190. -/
def gateP2C (size : Nat) : GateResult :=
  if size = 1 then
    GateResult.exited "Run batch peak2cxi with at least 2 processes!" (sysExitStatus none)
  else GateResult.proceed

/-- `util/batch_peak_powder.py` lines 175-177 (it prints the hit-finder
message, a copy-paste, but that is immaterial here). -/
def gatePowder (size : Nat) : GateResult :=
  if size = 1 then
    GateResult.exited "Run batch hit finder with at least 2 processes!" (sysExitStatus none)
  else GateResult.proceed

/-- Claim C6 counterexample: the claim says a single-process invocation
exits with a NON-ZERO exit code.  All three entry points call `sys.exit()`
with no argument, which is exit status 0. -/
theorem claim6_counterexample :
    gateHF 1 = GateResult.exited "Run batch hit finder with at least 2 processes!" 0 ∧
    gateP2C 1 = GateResult.exited "Run batch peak2cxi with at least 2 processes!" 0 ∧
    gatePowder 1 = GateResult.exited "Run batch hit finder with at least 2 processes!" 0 := by
  refine ⟨rfl, rfl, rfl⟩

/-- Claim C6 as amended: a single-process invocation is rejected
immediately, before any worker is engaged, with a diagnostic message — but
the exit status is 0 (Python's `sys.exit()` without argument), not
non-zero; any other process count proceeds. -/
theorem claim6_amended (size : Nat) :
    (size = 1 →
      gateHF size = GateResult.exited "Run batch hit finder with at least 2 processes!" 0 ∧
      gateP2C size = GateResult.exited "Run batch peak2cxi with at least 2 processes!" 0 ∧
      gatePowder size = GateResult.exited "Run batch hit finder with at least 2 processes!" 0) ∧
    (size ≠ 1 →
      gateHF size = GateResult.proceed ∧
      gateP2C size = GateResult.proceed ∧
      gatePowder size = GateResult.proceed) := by
  constructor
  · intro h
    subst h
    exact ⟨rfl, rfl, rfl⟩
  · intro h
    simp [gateHF, gateP2C, gatePowder, h]

/-- Witness for the amended C6 at sizes 1 and 2. -/
theorem claim6_witness :
    gateHF 1 = GateResult.exited "Run batch hit finder with at least 2 processes!" 0 ∧
    gateHF 2 = GateResult.proceed := by
  exact ⟨((claim6_amended 1).1 rfl).1, ((claim6_amended 2).2 (by decide)).1⟩

/-- `batch_hit_finder.py` lines 37-39: every manifest line is replaced by
`f[:-1]`, unconditionally dropping its last character. -/
def stripLineHF (l : List Char) : List Char := l.dropLast

/-- `util/batch_peak_powder.py` lines 35-40: the last character is dropped
only when it is a newline (`if '\n' == f[-1]`); `f[-1]` on an empty string
would raise IndexError (`none`), but `readlines` never yields one. -/
def stripLinePowder (l : List Char) : Option (List Char) :=
  match l.getLast? with
  | none => none
  | some c => if c = '\n' then some l.dropLast else some l

/-- Claim C10: on a line ending in a newline both masters agree (both drop
it); on a final manifest line with no trailing newline the hit-finder
master still drops the last character of the container path (the stripped
line plus that lost character re-forms the original), while the powder
master preserves the line intact — so the two disagree on that line. -/
theorem claim10_manifest_strip (l : List Char) (h : l ≠ []) :
    (l.getLast? = some '\n' →
      stripLineHF l = l.dropLast ∧ stripLinePowder l = some l.dropLast) ∧
    (l.getLast? ≠ some '\n' →
      stripLineHF l ++ [l.getLast h] = l ∧
      stripLineHF l ≠ l ∧
      stripLinePowder l = some l ∧
      stripLinePowder l ≠ some (stripLineHF l)) := by
  have hlast : l.getLast? = some (l.getLast h) := List.getLast?_eq_getLast l h
  have hdrop : l.dropLast ++ [l.getLast h] = l := List.dropLast_append_getLast h
  have hlen : l.dropLast.length + 1 = l.length := by
    have := congrArg List.length hdrop
    simpa using this
  have hne : l.dropLast ≠ l := by
    intro he
    have := congrArg List.length he
    omega
  constructor
  · intro hnl
    have hc : l.getLast h = '\n' := by
      rw [hlast] at hnl
      exact Option.some.inj hnl
    refine ⟨rfl, ?_⟩
    unfold stripLinePowder
    rw [hlast, hc]
    simp
  · intro hnl
    have hc : l.getLast h ≠ '\n' := by
      intro he
      exact hnl (by rw [hlast, he])
    refine ⟨hdrop, hne, ?_, ?_⟩
    · unfold stripLinePowder
      rw [hlast]
      simp [hc]
    · unfold stripLinePowder
      rw [hlast]
      simp [hc, stripLineHF]
      intro he
      exact hne he.symm

/-- Witness for C10 on the line "abc" (no trailing newline) and the line
"ab\n" (with one). -/
theorem claim10_witness :
    (stripLineHF ['a', 'b', 'c'] ++ [(['a', 'b', 'c'] : List Char).getLast (by decide)] = ['a', 'b', 'c'] ∧
      stripLinePowder ['a', 'b', 'c'] = some ['a', 'b', 'c']) ∧
    stripLinePowder ['a', 'b', '\n'] = some (['a', 'b', '\n'] : List Char).dropLast := by
  constructor
  · have h2 := (claim10_manifest_strip ['a', 'b', 'c'] (by decide)).2 (by decide)
    exact ⟨h2.1, h2.2.2.1⟩
  · exact ((claim10_manifest_strip ['a', 'b', '\n'] (by decide)).1 (by decide)).2

/-- `int(np.ceil(len(peak_info) / batch_size))` of
`util/batch_peak2cxi.py` line 45 (true division, so an exact ceiling for
the sizes at hand; `batch_size = 0` would raise ZeroDivisionError and is
outside the defaults, so only `b ≥ 1` is modelled). -/
def ceilDiv (l b : Nat) : Nat := (l + b - 1) / b

/-- The section sizes of `np.array_split(np.arange(l), n)`: `l % n`
sections of size `l / n + 1` followed by sections of size `l / n`. -/
def splitSizes (l n : Nat) : List Nat :=
  (List.range n).map fun i => if i < l % n then l / n + 1 else l / n

/-- Split a list into contiguous pieces of the given sizes. -/
def splitBySizes {α : Type} : List Nat → List α → List (List α)
  | [], _ => []
  | sz :: rest, xs => xs.take sz :: splitBySizes rest (xs.drop sz)

/-- The job partition of `util/batch_peak2cxi.py` master_run lines 44-51:
`nb_jobs = ceil(len/batch)`, `ids = np.array_split(np.arange(len), nb_jobs)`,
`jobs[i] = peak_info[ids[i]]`. -/
def jobsP2C {α : Type} (xs : List α) (b : Nat) : List (List α) :=
  splitBySizes (splitSizes xs.length (ceilDiv xs.length b)) xs

theorem sum_range_ite_ge (q : Nat) : ∀ n r : Nat, n ≤ r →
    (((List.range n).map fun i => if i < r then q + 1 else q).sum) = n * (q + 1) := by
  intro n
  induction n with
  | zero => intro r _; simp
  | succ m ih =>
    intro r h
    rw [List.range_succ, List.map_append, List.sum_append]
    simp only [List.map_cons, List.map_nil, List.sum_cons, List.sum_nil]
    rw [if_pos (by omega), ih r (by omega)]
    ring

theorem sum_range_ite (q : Nat) : ∀ n r : Nat, r ≤ n →
    (((List.range n).map fun i => if i < r then q + 1 else q).sum) = n * q + r := by
  intro n
  induction n with
  | zero => intro r h; simp; omega
  | succ m ih =>
    intro r h
    rcases Nat.lt_or_ge m r with hm | hm
    · have hr : r = m + 1 := by omega
      subst hr
      rw [List.range_succ, List.map_append, List.sum_append]
      simp only [List.map_cons, List.map_nil, List.sum_cons, List.sum_nil]
      rw [if_pos (by omega), sum_range_ite_ge q m (m + 1) (by omega)]
      ring
    · rw [List.range_succ, List.map_append, List.sum_append]
      simp only [List.map_cons, List.map_nil, List.sum_cons, List.sum_nil]
      rw [if_neg (by omega), ih r hm]
      ring

theorem sum_splitSizes (l n : Nat) (hn : 0 < n) : (splitSizes l n).sum = l := by
  unfold splitSizes
  rw [sum_range_ite (l / n) n (l % n) (Nat.le_of_lt (Nat.mod_lt l hn))]
  have := Nat.div_add_mod l n
  omega

theorem splitBySizes_flatten {α : Type} (szs : List Nat) :
    ∀ xs : List α, (splitBySizes szs xs).flatten = xs.take szs.sum := by
  induction szs with
  | nil => intro xs; simp [splitBySizes]
  | cons sz rest ih =>
    intro xs
    simp only [splitBySizes, List.flatten_cons, List.sum_cons]
    rw [ih (xs.drop sz), List.take_add]

theorem splitBySizes_length {α : Type} (szs : List Nat) :
    ∀ xs : List α, (splitBySizes szs xs).length = szs.length := by
  induction szs with
  | nil => intro xs; simp [splitBySizes]
  | cons sz rest ih => intro xs; simp [splitBySizes, ih]

theorem splitBySizes_mem {α : Type} (szs : List Nat) :
    ∀ xs : List α, szs.sum ≤ xs.length →
      ∀ j ∈ splitBySizes szs xs, ∃ sz ∈ szs, j.length = sz := by
  induction szs with
  | nil => intro xs _ j hj; simp [splitBySizes] at hj
  | cons sz rest ih =>
    intro xs hsum j hj
    simp only [List.sum_cons] at hsum
    rcases hj with hj | hj
    case head =>
      refine ⟨sz, List.mem_cons_self sz rest, ?_⟩
      rw [List.length_take]
      omega
    case tail hj =>
      obtain ⟨sz', hsz', hlen⟩ := ih (xs.drop sz) (by rw [List.length_drop]; omega) j hj
      exact ⟨sz', List.mem_cons_of_mem sz hsz', hlen⟩

theorem ceilDiv_pos (l b : Nat) (hl : 1 ≤ l) (hb : 1 ≤ b) : 1 ≤ ceilDiv l b := by
  unfold ceilDiv
  rw [Nat.le_div_iff_mul_le hb]
  omega

theorem ceilDiv_le_self (l b : Nat) (hl : 1 ≤ l) (hb : 1 ≤ b) : ceilDiv l b ≤ l := by
  unfold ceilDiv
  have hmul : l * 1 ≤ l * b := Nat.mul_le_mul_left l hb
  have hexp : (l + 1) * b = l * b + b := by ring
  have hlt : l + b - 1 < (l + 1) * b := by omega
  have h2 := (Nat.div_lt_iff_lt_mul hb).mpr hlt
  omega

theorem le_ceilDiv_mul (l b : Nat) (hb : 1 ≤ b) : l ≤ ceilDiv l b * b := by
  unfold ceilDiv
  have h1 : (l + b - 1) % b < b := Nat.mod_lt _ hb
  have h2 := Nat.div_add_mod (l + b - 1) b
  have h3 : l ≤ b * ((l + b - 1) / b) := by omega
  rw [Nat.mul_comm]
  exact h3

/-- Elements of `splitSizes l n` under the `n = ceilDiv l b` choice made
by the code: each is `l / n` or `l / n + 1`, and lies between 1 and `b`. -/
theorem splitSizes_bounds (l b : Nat) (hl : 1 ≤ l) (hb : 1 ≤ b) :
    ∀ sz ∈ splitSizes l (ceilDiv l b),
      (sz = l / ceilDiv l b ∨ sz = l / ceilDiv l b + 1) ∧ 1 ≤ sz ∧ sz ≤ b := by
  intro sz hsz
  set n := ceilDiv l b with hn
  have hn1 : 1 ≤ n := ceilDiv_pos l b hl hb
  have hnl : n ≤ l := ceilDiv_le_self l b hl hb
  have hlnb : l ≤ n * b := by
    have h := le_ceilDiv_mul l b hb
    rw [← hn] at h
    exact h
  have hq1 : 1 ≤ l / n := (Nat.one_le_div_iff (by omega)).mpr hnl
  have hqb : l / n ≤ b := by
    have hlt : l < (b + 1) * n := by
      calc l ≤ n * b := hlnb
        _ < n * b + n := by omega
        _ = (b + 1) * n := by ring
    have := (Nat.div_lt_iff_lt_mul (by omega : 0 < n)).mpr hlt
    omega
  unfold splitSizes at hsz
  rw [List.mem_map] at hsz
  obtain ⟨i, hi, hdef⟩ := hsz
  rw [List.mem_range] at hi
  by_cases hir : i < l % n
  · rw [if_pos hir] at hdef
    have hrpos : 0 < l % n := by omega
    have hne : l ≠ n * b := by
      intro he
      rw [he, Nat.mul_mod_right] at hrpos
      omega
    have hcomm : b * n = n * b := Nat.mul_comm b n
    have hq1b : l / n < b := by
      have := (Nat.div_lt_iff_lt_mul (by omega : 0 < n)).mpr (by omega : l < b * n)
      omega
    omega
  · rw [if_neg hir] at hdef
    omega

/-- Claim C2 counterexample: the claim says every batch has exactly
`batch_size` units except possibly the last.  For 7 units and
`batch_size = 5` the code makes `ceil(7/5) = 2` jobs via `np.array_split`,
whose sizes are balanced: `[4, 3]`, not `[5, 2]` — the first (non-last)
batch has 4 units, not 5. -/
theorem claim2_counterexample :
    ((jobsP2C (List.range 7) 5).map List.length) = [4, 3] ∧
    ([4, 3] : List Nat) ≠ [5, 2] := by
  refine ⟨by decide, by decide⟩

/-- Claim C2 as amended: for every non-empty unit list and
`batch_size ≥ 1` the partition consists of `ceil(total/batch_size)`
contiguous batches in original enumeration order whose concatenation
reproduces the full unit sequence exactly once; the batch sizes are
balanced — each is `total / n` or `total / n + 1` (`n` the number of
batches) and lies between 1 and `batch_size` — rather than exactly
`batch_size` with only the last short. -/
theorem claim2_amended {α : Type} (xs : List α) (b : Nat) (hxs : xs ≠ []) (hb : 1 ≤ b) :
    (jobsP2C xs b).flatten = xs ∧
    (jobsP2C xs b).length = ceilDiv xs.length b ∧
    ∀ j ∈ jobsP2C xs b,
      (j.length = xs.length / ceilDiv xs.length b ∨
        j.length = xs.length / ceilDiv xs.length b + 1) ∧
      1 ≤ j.length ∧ j.length ≤ b := by
  have hl : 1 ≤ xs.length := List.length_pos.mpr hxs
  have hn : 1 ≤ ceilDiv xs.length b := ceilDiv_pos xs.length b hl hb
  have hsum : (splitSizes xs.length (ceilDiv xs.length b)).sum = xs.length :=
    sum_splitSizes xs.length (ceilDiv xs.length b) (by omega)
  refine ⟨?_, ?_, ?_⟩
  · unfold jobsP2C
    rw [splitBySizes_flatten, hsum, List.take_length]
  · unfold jobsP2C
    rw [splitBySizes_length]
    unfold splitSizes
    simp
  · intro j hj
    obtain ⟨sz, hsz, hlen⟩ :=
      splitBySizes_mem (splitSizes xs.length (ceilDiv xs.length b)) xs (by omega) j hj
    have hbounds := splitSizes_bounds xs.length b hl hb sz hsz
    rw [hlen]
    omega

/-- Witness for the amended C2: the spec scenario (manifest of 7 + 3 = 10
units, batch size 5) gives exactly 2 jobs of sizes [5, 5]. -/
theorem claim2_witness :
    (List.range 10 ≠ []) ∧ 1 ≤ 5 ∧
    ((jobsP2C (List.range 10) 5).flatten = List.range 10 ∧
      (jobsP2C (List.range 10) 5).length = ceilDiv 10 5) ∧
    ((jobsP2C (List.range 10) 5).map List.length) = [5, 5] := by
  have h := claim2_amended (List.range 10) 5 (by decide) (by decide)
  exact ⟨by decide, by decide, ⟨h.1, by simpa using h.2.1⟩, by decide⟩

/-- An output artifact of the compaction worker: the cxi file
`'%s-rank%d-job%d.cxi' % (prefix, rank, count)` and the frames written
into it. -/
structure Artifact where
  rank : Nat
  count : Nat
  contents : List Frame
deriving DecidableEq, Repr

/-- Local state of `slave_run` in `util/batch_peak2cxi.py`: the
accumulation buffer `batch`, the flush counter `count`, and the artifacts
written so far. -/
structure SlaveSt where
  batch : List Frame
  count : Nat
  arts : List Artifact

/-- `if job[i]['nb_peak'] >= min_peak: batch.append(job[i])` (lines 154-155). -/
def condAppend (minPeak : Nat) (st : SlaveSt) (u : Frame) : SlaveSt :=
  if minPeak ≤ u.nbPeak then { st with batch := st.batch ++ [u] } else st

/-- `if len(batch) == cxi_size:` save `'%s-rank%d-job%d.cxi'`, clear the
buffer, bump `count` (lines 156-168); checked on every unit, appended or
not. -/
def flushCheck (cxiSize rank : Nat) (st : SlaveSt) : SlaveSt :=
  if st.batch.length = cxiSize then
    { batch := [], count := st.count + 1,
      arts := st.arts ++ [⟨rank, st.count, st.batch⟩] }
  else st

/-- One iteration of the `for i in range(len(job))` body (lines 153-168). -/
def slaveStepP2C (minPeak cxiSize rank : Nat) (st : SlaveSt) (u : Frame) : SlaveSt :=
  flushCheck cxiSize rank (condAppend minPeak st u)

/-- The whole `slave_run` compaction behaviour on the sequence of jobs it
receives before the stop flag (lines 148-180): process every unit of every
job in order, and after the stop flag flush the remaining buffer — if
non-empty — to one more artifact (without bumping `count`). -/
def slaveRunP2C (minPeak cxiSize rank : Nat) (jobsRecv : List (List Frame)) : List Artifact :=
  let st := jobsRecv.foldl
    (fun st job => job.foldl (slaveStepP2C minPeak cxiSize rank) st)
    ⟨[], 0, []⟩
  if st.batch.length > 0 then st.arts ++ [⟨rank, st.count, st.batch⟩] else st.arts

theorem foldl_flatten_eq {α β : Type} (f : β → α → β) :
    ∀ (L : List (List α)) (b : β),
      L.flatten.foldl f b = L.foldl (fun b l => l.foldl f b) b := by
  intro L
  induction L with
  | nil => intro b; simp
  | cons l rest ih =>
    intro b
    rw [List.flatten_cons, List.foldl_append, List.foldl_cons, ih]

/-- Invariant of the compaction loop: the artifacts plus the live buffer
hold exactly the qualifying units of the processed stream, every flushed
artifact is full and carries this worker's rank, the buffer is strictly
below capacity, and the artifact counters are 0,1,2,... with `count` the
next free one. -/
def flushInv (minPeak cxiSize rank : Nat) (processed : List Frame) (st : SlaveSt) : Prop :=
  (st.arts.map Artifact.contents).flatten ++ st.batch
      = processed.filter (fun u => decide (minPeak ≤ u.nbPeak)) ∧
  st.batch.length < cxiSize ∧
  (∀ a ∈ st.arts, a.contents.length = cxiSize ∧ a.rank = rank) ∧
  st.arts.map Artifact.count = List.range st.arts.length ∧
  st.count = st.arts.length

theorem slaveStepP2C_inv (minPeak cxiSize rank : Nat) (hcap : 1 ≤ cxiSize)
    (processed : List Frame) (st : SlaveSt) (u : Frame)
    (h : flushInv minPeak cxiSize rank processed st) :
    flushInv minPeak cxiSize rank (processed ++ [u]) (slaveStepP2C minPeak cxiSize rank st u) := by
  obtain ⟨hjoin, hlt, hfull, hcnt, hc⟩ := h
  by_cases hq : minPeak ≤ u.nbPeak
  · have hca : condAppend minPeak st u = { st with batch := st.batch ++ [u] } := by
      unfold condAppend
      rw [if_pos hq]
    by_cases hhit : st.batch.length + 1 = cxiSize
    · have hstep : slaveStepP2C minPeak cxiSize rank st u
          = { batch := [], count := st.count + 1,
              arts := st.arts ++ [⟨rank, st.count, st.batch ++ [u]⟩] } := by
        unfold slaveStepP2C flushCheck
        rw [hca]
        simp only [List.length_append, List.length_cons, List.length_nil]
        rw [if_pos (by omega)]
      rw [hstep]
      refine ⟨?_, ?_, ?_, ?_, ?_⟩
      · show ((st.arts ++ [(⟨rank, st.count, st.batch ++ [u]⟩ : Artifact)]).map Artifact.contents).flatten
            ++ ([] : List Frame) = _
        rw [List.filter_append]
        simp only [List.map_append, List.map_cons, List.map_nil, List.flatten_append,
          List.flatten_cons, List.flatten_nil, List.append_nil]
        rw [← List.append_assoc, hjoin]
        congr 1
        simp [List.filter_cons, hq]
      · show ([] : List Frame).length < cxiSize
        simpa using hcap
      · intro a ha
        rcases List.mem_append.mp ha with ha | ha
        · exact hfull a ha
        · rw [List.mem_singleton] at ha
          subst ha
          constructor
          · simpa using hhit
          · rfl
      · show (st.arts ++ [(⟨rank, st.count, st.batch ++ [u]⟩ : Artifact)]).map Artifact.count = _
        simp only [List.map_append, List.map_cons, List.map_nil, List.length_append,
          List.length_cons, List.length_nil]
        rw [hcnt, hc, List.range_succ]
      · show st.count + 1 = (st.arts ++ [(⟨rank, st.count, st.batch ++ [u]⟩ : Artifact)]).length
        simp [hc]
    · have hstep : slaveStepP2C minPeak cxiSize rank st u
          = { st with batch := st.batch ++ [u] } := by
        unfold slaveStepP2C flushCheck
        rw [hca]
        simp only [List.length_append, List.length_cons, List.length_nil]
        rw [if_neg (by omega)]
      rw [hstep]
      refine ⟨?_, ?_, hfull, hcnt, hc⟩
      · show (st.arts.map Artifact.contents).flatten ++ (st.batch ++ [u]) = _
        rw [List.filter_append, ← List.append_assoc, hjoin]
        congr 1
        simp [List.filter_cons, hq]
      · show (st.batch ++ [u]).length < cxiSize
        simp only [List.length_append, List.length_cons, List.length_nil]
        omega
  · have hca : condAppend minPeak st u = st := by
      unfold condAppend
      rw [if_neg hq]
    have hstep : slaveStepP2C minPeak cxiSize rank st u = st := by
      unfold slaveStepP2C flushCheck
      rw [hca, if_neg (by omega)]
    rw [hstep]
    refine ⟨?_, hlt, hfull, hcnt, hc⟩
    rw [List.filter_append]
    have hnone : ([u].filter fun v => decide (minPeak ≤ v.nbPeak)) = [] := by
      simp [List.filter_cons, hq]
    rw [hnone, List.append_nil]
    exact hjoin

theorem foldl_slaveStep_inv (minPeak cxiSize rank : Nat) (hcap : 1 ≤ cxiSize) :
    ∀ (units processed : List Frame) (st : SlaveSt),
      flushInv minPeak cxiSize rank processed st →
      flushInv minPeak cxiSize rank (processed ++ units)
        (units.foldl (slaveStepP2C minPeak cxiSize rank) st) := by
  intro units
  induction units with
  | nil => intro processed st h; simpa using h
  | cons u rest ih =>
    intro processed st h
    rw [List.foldl_cons]
    have h1 := slaveStepP2C_inv minPeak cxiSize rank hcap processed st u h
    have h2 := ih (processed ++ [u]) _ h1
    simpa [List.append_assoc] using h2

/-- Claim C7: the compaction worker flushes its buffer to a uniquely named
artifact (this worker's rank, counter 0,1,2,... increasing by one per
flush) exactly when it reaches the configured capacity, and flushes the
non-empty remainder once more at shutdown: the artifacts' contents
concatenate to exactly the qualifying units in order, every artifact but
possibly the last is full, and every artifact holds between 1 and
`cxi_size` units. -/
theorem claim7_flush_chunks (minPeak cxiSize rank : Nat) (jobsRecv : List (List Frame))
    (hcap : 1 ≤ cxiSize) :
    ((slaveRunP2C minPeak cxiSize rank jobsRecv).map Artifact.contents).flatten
      = jobsRecv.flatten.filter (fun u => decide (minPeak ≤ u.nbPeak)) ∧
    (∀ a ∈ (slaveRunP2C minPeak cxiSize rank jobsRecv).dropLast,
      a.contents.length = cxiSize) ∧
    (∀ a ∈ slaveRunP2C minPeak cxiSize rank jobsRecv,
      1 ≤ a.contents.length ∧ a.contents.length ≤ cxiSize ∧ a.rank = rank) ∧
    (slaveRunP2C minPeak cxiSize rank jobsRecv).map Artifact.count
      = List.range (slaveRunP2C minPeak cxiSize rank jobsRecv).length := by
  have hinit : flushInv minPeak cxiSize rank [] ⟨[], 0, []⟩ := by
    refine ⟨by simp, by simpa using hcap, by simp, by simp, rfl⟩
  have hfold := foldl_slaveStep_inv minPeak cxiSize rank hcap jobsRecv.flatten [] ⟨[], 0, []⟩ hinit
  rw [foldl_flatten_eq] at hfold
  unfold slaveRunP2C
  obtain ⟨hjoin, hlt, hfull, hcnt, hc⟩ := hfold
  set st := jobsRecv.foldl
    (fun st job => job.foldl (slaveStepP2C minPeak cxiSize rank) st)
    (⟨[], 0, []⟩ : SlaveSt) with hst
  simp only [List.nil_append] at hjoin
  by_cases hb : st.batch.length > 0
  · rw [if_pos hb]
    refine ⟨?_, ?_, ?_, ?_⟩
    · simp only [List.map_append, List.map_cons, List.map_nil, List.flatten_append,
        List.flatten_cons, List.flatten_nil, List.append_nil]
      exact hjoin
    · intro a ha
      rw [List.dropLast_concat] at ha
      exact (hfull a ha).1
    · intro a ha
      rcases List.mem_append.mp ha with ha | ha
      · have := hfull a ha
        refine ⟨by omega, by omega, this.2⟩
      · rw [List.mem_singleton] at ha
        subst ha
        exact ⟨by simpa using hb, by simpa using Nat.le_of_lt hlt, rfl⟩
    · simp only [List.map_append, List.map_cons, List.map_nil, List.length_append,
        List.length_cons, List.length_nil]
      rw [hcnt, hc, List.range_succ]
  · rw [if_neg hb]
    have hbe : st.batch = [] := by
      rw [← List.length_eq_zero]
      omega
    refine ⟨?_, ?_, ?_, hcnt⟩
    · rw [← hjoin, hbe, List.append_nil]
    · intro a ha
      exact (hfull a (List.mem_of_mem_dropLast ha)).1
    · intro a ha
      have := hfull a ha
      refine ⟨by omega, by omega, this.2⟩

def jobs7 : List (List Frame) := [[⟨0, 9⟩, ⟨1, 9⟩, ⟨2, 9⟩], [⟨3, 9⟩, ⟨4, 9⟩]]

/-- Witness for C7 at the spec scenario: capacity 2, a worker accepting 5
qualifying units across its jobs writes exactly 3 artifacts of sizes
2, 2, 1, counters 0, 1, 2, the last written at the shutdown flush. -/
theorem claim7_witness :
    1 ≤ 2 ∧
    ((slaveRunP2C 1 2 1 jobs7).map Artifact.contents).flatten
      = jobs7.flatten.filter (fun u => decide (1 ≤ u.nbPeak)) ∧
    (slaveRunP2C 1 2 1 jobs7).map (fun a => a.contents.length) = [2, 2, 1] ∧
    (slaveRunP2C 1 2 1 jobs7).map Artifact.count = [0, 1, 2] := by
  have h := claim7_flush_chunks 1 2 1 jobs7 (by decide)
  exact ⟨by decide, h.1, by decide, by decide⟩

/- Preservation lemmas: a predicate on the master state that is stable
under the primitive state updates is an invariant of each loop. -/

theorem satHF_pres (nbJobs : Nat) (P : MState → Prop)
    (hd : ∀ s st, P st → P (dispatchTo s st)) :
    ∀ (slaves : List Nat) (st st' : MState), P st →
      satHF nbJobs slaves st = some st' → P st' := by
  intro slaves
  induction slaves with
  | nil =>
    intro st st' hP h
    simp only [satHF] at h
    cases h
    exact hP
  | cons s rest ih =>
    intro st st' hP h
    simp only [satHF] at h
    split at h
    · exact ih (dispatchTo s st) st' (hd s st hP) h
    · cases h

theorem steadyPassHF_pres (ann : Nat → List Frame) (oracle : Nat → Nat → Bool)
    (nbJobs p : Nat) (P : MState → Prop)
    (h1 : ∀ s j st, P st → P (dispatchTo s (steadyCollect ann s j st)))
    (h2 : ∀ s j st, P st → P (steadyStopMark s (steadyCollect ann s j st))) :
    ∀ (slaves : List Nat) (st st' : MState), P st →
      steadyPassHF ann oracle nbJobs p slaves st = some st' → P st' := by
  intro slaves
  induction slaves with
  | nil =>
    intro st st' hP h
    simp only [steadyPassHF] at h
    cases h
    exact hP
  | cons s rest ih =>
    intro st st' hP h
    simp only [steadyPassHF] at h
    split at h
    case _ j heq =>
      split at h
      · split at h
        · exact ih _ st' (h1 s j st hP) h
        · exact ih _ st' (h2 s j st hP) h
      · exact ih st st' hP h
    case _ => cases h

theorem snapStep_pres (minPeak updateFreq nbJobs : Nat) (P : MState → Prop)
    (hpe : ∀ st, P st → P (passEndMark st))
    (hsn : ∀ st, P st → P (snapAdd minPeak nbJobs (passEndMark st))) :
    ∀ (st st' : MState), P st → snapStep minPeak updateFreq nbJobs st = some st' → P st' := by
  intro st st' hP h
  unfold snapStep at h
  split at h
  · cases h
  · split at h
    · split at h
      · cases h
      · split at h
        · cases h
        · cases h
          exact hsn st hP
    · cases h
      exact hpe st hP

theorem steadyLoopHF_pres (ann : Nat → List Frame) (oracle : Nat → Nat → Bool)
    (minPeak updateFreq nbJobs : Nat) (slaves : List Nat) (P : MState → Prop)
    (hpass : ∀ p st st', P st → steadyPassHF ann oracle nbJobs p slaves st = some st' → P st')
    (hsnap : ∀ st st', P st → snapStep minPeak updateFreq nbJobs st = some st' → P st') :
    ∀ (fuel p : Nat) (st : MState) (out : Nat × MState), P st →
      steadyLoopHF ann oracle minPeak updateFreq nbJobs slaves fuel p st = some out →
      P out.2 := by
  intro fuel
  induction fuel with
  | zero =>
    intro p st out hP h
    simp only [steadyLoopHF] at h
    cases h
  | succ fuel ih =>
    intro p st out hP h
    simp only [steadyLoopHF] at h
    split at h
    · split at h
      · cases h
      case _ st1 hp1 =>
        split at h
        · cases h
        case _ st2 hp2 =>
          exact ih (p + 1) st2 out (hsnap st1 st2 (hpass p st st1 hP hp1) hp2) h
    · cases h
      exact hP

theorem drainIterHF_pres (ann : Nat → List Frame) (oracle : Nat → Nat → Bool) (p : Nat)
    (P : MState → Prop)
    (hc : ∀ s j st, P st → P (drainCollect ann s j st)) :
    ∀ (gas : Nat) (slaves : List Nat) (idx : Nat) (st : MState) (d : Bool)
      (out : List Nat × MState × Bool), P st →
      drainIterHF ann oracle p gas slaves idx st d = some out → P out.2.1 := by
  intro gas
  induction gas with
  | zero =>
    intro slaves idx st d out hP h
    simp only [drainIterHF] at h
    split at h
    · cases h
    · cases h
      exact hP
  | succ gas ih =>
    intro slaves idx st d out hP h
    simp only [drainIterHF] at h
    split at h
    · split at h
      case _ j heq =>
        split at h
        · exact ih _ _ _ _ out (hc _ j st hP) h
        · exact ih _ _ _ _ out hP h
      case _ => cases h
    · cases h
      exact hP

theorem drainLoopHF_pres (ann : Nat → List Frame) (oracle : Nat → Nat → Bool)
    (P : MState → Prop)
    (hc : ∀ s j st, P st → P (drainCollect ann s j st)) :
    ∀ (fuel p : Nat) (slaves : List Nat) (st st' : MState), P st →
      drainLoopHF ann oracle fuel p slaves st = some st' → P st' := by
  intro fuel
  induction fuel with
  | zero =>
    intro p slaves st st' hP h
    simp only [drainLoopHF] at h
    cases h
  | succ fuel ih =>
    intro p slaves st st' hP h
    simp only [drainLoopHF] at h
    split at h
    · cases h
    case _ slaves1 st1 allDone hiter =>
      have hst1 : P st1 :=
        drainIterHF_pres ann oracle p P hc slaves.length slaves 0 st true
          (slaves1, st1, allDone) hP hiter
      split at h
      · cases h
        exact hst1
      · exact ih (p + 1) slaves1 st1 st' hst1 h

/-- During saturation every armed slot was idle before, because the slave
ranks are distinct and no receive was armed yet, so the
double-outstanding flag stays clear. -/
theorem satHF_viol (nbJobs : Nat) :
    ∀ (slaves : List Nat) (st st' : MState), st.viol = false →
      (∀ s ∈ slaves, st.reqs s = Req.idle) → slaves.Nodup →
      satHF nbJobs slaves st = some st' → st'.viol = false := by
  intro slaves
  induction slaves with
  | nil =>
    intro st st' hv _ _ h
    simp only [satHF] at h
    cases h
    exact hv
  | cons s rest ih =>
    intro st st' hv hidle hnd h
    simp only [satHF] at h
    split at h
    · refine ih (dispatchTo s st) st' ?_ ?_ (List.Nodup.of_cons hnd) h
      · have hi : st.reqs s = Req.idle := hidle s (List.mem_cons_self s rest)
        simp [dispatchTo, hi, isArmed, hv]
      · intro t ht
        have hts : t ≠ s := by
          intro he
          subst he
          exact (List.nodup_cons.mp hnd).1 ht
        simp only [dispatchTo, setReq]
        rw [if_neg hts]
        exact hidle t (List.mem_cons_of_mem s ht)
    · cases h

/-- A completing run decomposes into its four stages. -/
theorem masterRunHF_eq_some (jobs : List (List Frame)) (ann : Nat → List Frame)
    (minPeak updateFreq size : Nat) (oracle : Nat → Nat → Bool) (fuel : Nat)
    (st : MState) (fs : FinalStat) :
    masterRunHF jobs ann minPeak updateFreq size oracle fuel = some (st, fs) →
    ∃ st0 p1 st1,
      satHF jobs.length (slavesOf size) initState = some st0 ∧
      steadyLoopHF ann oracle minPeak updateFreq jobs.length (slavesOf size) fuel 0 st0
        = some (p1, st1) ∧
      drainLoopHF ann oracle fuel p1 (slavesOf size) st1 = some st ∧
      finalizeHF minPeak jobs.length st = some fs := by
  intro h
  unfold masterRunHF at h
  split at h
  · cases h
  case _ st0 hsat =>
    split at h
    · cases h
    case _ pr p1 st1 hloop =>
      split at h
      · cases h
      case _ st2 hdrain =>
        split at h
        · cases h
        case _ fs2 hfin =>
          cases h
          exact ⟨st0, p1, st1, hsat, hloop, hdrain, hfin⟩

/-- Claim C5: in every completing run of the hit-finder master, each
worker slot has at most one outstanding request at every instant — the
instrumentation flag `viol`, raised whenever a receive is armed (or a job
sent) on a slot whose previous receive has not completed, is never set. -/
theorem claim5_single_outstanding (jobs : List (List Frame)) (ann : Nat → List Frame)
    (minPeak updateFreq size : Nat) (oracle : Nat → Nat → Bool) (fuel : Nat)
    (h : (masterRunHF jobs ann minPeak updateFreq size oracle fuel).isSome = true) :
    violOf (masterRunHF jobs ann minPeak updateFreq size oracle fuel) = false := by
  have hv1 : ∀ s j st, st.viol = false →
      (dispatchTo s (steadyCollect ann s j st)).viol = false := by
    intro s j st hv
    simp [dispatchTo, steadyCollect, setReq, isArmed, hv]
  have hv2 : ∀ s j st, st.viol = false →
      (steadyStopMark s (steadyCollect ann s j st)).viol = false := by
    intro s j st hv
    simp [steadyStopMark, steadyCollect, hv]
  have hvc : ∀ s j st, st.viol = false → (drainCollect ann s j st).viol = false := by
    intro s j st hv
    simp [drainCollect, steadyStopMark, steadyCollect, hv]
  have hvpe : ∀ st : MState, st.viol = false → (passEndMark st).viol = false := by
    intro st hv
    simp [passEndMark, hv]
  have hvsn : ∀ st : MState, st.viol = false →
      (snapAdd minPeak jobs.length (passEndMark st)).viol = false := by
    intro st hv
    simp [snapAdd, passEndMark, hv]
  obtain ⟨⟨st, fs⟩, hrun⟩ := Option.isSome_iff_exists.mp h
  obtain ⟨st0, p1, st1, hsat, hloop, hdrain, hfin⟩ :=
    masterRunHF_eq_some jobs ann minPeak updateFreq size oracle fuel st fs hrun
  have hst0 : st0.viol = false := by
    refine satHF_viol jobs.length (slavesOf size) initState st0 rfl (fun s _ => rfl) ?_ hsat
    exact List.nodup_range' 1 (size - 1)
  have hst1 : st1.viol = false := by
    refine steadyLoopHF_pres ann oracle minPeak updateFreq jobs.length (slavesOf size)
      (fun st => st.viol = false) ?_ ?_ fuel 0 st0 (p1, st1) hst0 hloop
    · intro p st st' hP hpass
      exact steadyPassHF_pres ann oracle jobs.length p (fun st => st.viol = false)
        hv1 hv2 (slavesOf size) st st' hP hpass
    · intro st st' hP hsnap
      exact snapStep_pres minPeak updateFreq jobs.length (fun st => st.viol = false)
        hvpe hvsn st st' hP hsnap
  have hst2 : st.viol = false :=
    drainLoopHF_pres ann oracle (fun st => st.viol = false) hvc fuel p1
      (slavesOf size) st1 st hst1 hdrain
  rw [hrun]
  exact hst2

/-- Witness for C5 on a concrete completing run (the 2-worker, 2-job
scenario). -/
theorem claim5_witness :
    (masterRunHF jobsAB annAB 1 10 3 oracleTrue 10).isSome = true ∧
    violOf (masterRunHF jobsAB annAB 1 10 3 oracleTrue 10) = false := by
  exact ⟨rfl, claim5_single_outstanding jobsAB annAB 1 10 3 oracleTrue 10 rfl⟩

/-- Claim C9: in every completing run of the hit-finder master, the final
snapshot's accepted-unit count equals the number of units in the received
per-job payloads (flat-collected in receipt order) whose attached
`nb_peak` is at least the threshold, its processed-unit count is the
number of received units, and its rate is accepted/processed × 100. -/
theorem claim9_accepted_counts (jobs : List (List Frame)) (ann : Nat → List Frame)
    (minPeak updateFreq size : Nat) (oracle : Nat → Nat → Bool) (fuel : Nat)
    (h : (masterRunHF jobs ann minPeak updateFreq size oracle fuel).isSome = true) :
    hitsOf (masterRunHF jobs ann minPeak updateFreq size oracle fuel)
      = ((collectedOf (masterRunHF jobs ann minPeak updateFreq size oracle fuel)).map
          ann).flatten.countP (fun u => decide (minPeak ≤ u.nbPeak)) ∧
    framesOf (masterRunHF jobs ann minPeak updateFreq size oracle fuel)
      = ((collectedOf (masterRunHF jobs ann minPeak updateFreq size oracle fuel)).map
          ann).flatten.length ∧
    rateOf (masterRunHF jobs ann minPeak updateFreq size oracle fuel)
      = ((hitsOf (masterRunHF jobs ann minPeak updateFreq size oracle fuel) : Nat) : Rat)
          / ((framesOf (masterRunHF jobs ann minPeak updateFreq size oracle fuel) : Nat) : Rat)
          * 100 := by
  obtain ⟨⟨st, fs⟩, hrun⟩ := Option.isSome_iff_exists.mp h
  obtain ⟨st0, p1, st1, hsat, hloop, hdrain, hfin⟩ :=
    masterRunHF_eq_some jobs ann minPeak updateFreq size oracle fuel st fs hrun
  have hd : ∀ (sl : Nat) (stx : MState),
      stx.results = (stx.collected.map ann).flatten →
      (dispatchTo sl stx).results = ((dispatchTo sl stx).collected.map ann).flatten := by
    intro sl stx hP
    simpa [dispatchTo] using hP
  have h1 : ∀ (sl j : Nat) (stx : MState),
      stx.results = (stx.collected.map ann).flatten →
      (dispatchTo sl (steadyCollect ann sl j stx)).results
        = ((dispatchTo sl (steadyCollect ann sl j stx)).collected.map ann).flatten := by
    intro sl j stx hP
    simp [dispatchTo, steadyCollect, hP, List.map_append, List.flatten_append]
  have h2 : ∀ (sl j : Nat) (stx : MState),
      stx.results = (stx.collected.map ann).flatten →
      (steadyStopMark sl (steadyCollect ann sl j stx)).results
        = ((steadyStopMark sl (steadyCollect ann sl j stx)).collected.map ann).flatten := by
    intro sl j stx hP
    simp [steadyStopMark, steadyCollect, hP, List.map_append, List.flatten_append]
  have hc : ∀ (sl j : Nat) (stx : MState),
      stx.results = (stx.collected.map ann).flatten →
      (drainCollect ann sl j stx).results
        = ((drainCollect ann sl j stx).collected.map ann).flatten := by
    intro sl j stx hP
    simp [drainCollect, steadyStopMark, steadyCollect, hP, List.map_append, List.flatten_append]
  have hst0 : st0.results = (st0.collected.map ann).flatten :=
    satHF_pres jobs.length (fun stx => stx.results = (stx.collected.map ann).flatten)
      hd (slavesOf size) initState st0 rfl hsat
  have hst1 : st1.results = (st1.collected.map ann).flatten := by
    refine steadyLoopHF_pres ann oracle minPeak updateFreq jobs.length (slavesOf size)
      (fun stx => stx.results = (stx.collected.map ann).flatten) ?_ ?_
      fuel 0 st0 (p1, st1) hst0 hloop
    · intro p stx st' hP hpass
      exact steadyPassHF_pres ann oracle jobs.length p
        (fun stx => stx.results = (stx.collected.map ann).flatten)
        h1 h2 (slavesOf size) stx st' hP hpass
    · intro stx st' hP hsnap
      refine snapStep_pres minPeak updateFreq jobs.length
        (fun stx => stx.results = (stx.collected.map ann).flatten) ?_ ?_ stx st' hP hsnap
      · intro sty hP2
        simpa [passEndMark] using hP2
      · intro sty hP2
        simpa [snapAdd, passEndMark] using hP2
  have hst2 : st.results = (st.collected.map ann).flatten :=
    drainLoopHF_pres ann oracle
      (fun stx => stx.results = (stx.collected.map ann).flatten) hc fuel p1
      (slavesOf size) st1 st hst1 hdrain
  unfold finalizeHF at hfin
  split at hfin
  · cases hfin
  · cases hfin
    rw [hrun]
    simp only [hitsOf, framesOf, rateOf, collectedOf]
    rw [← hst2]
    exact ⟨rfl, rfl, trivial⟩

def jobs4 : List (List Frame) := [[⟨0, 0⟩], [⟨1, 0⟩], [⟨2, 0⟩], [⟨3, 0⟩]]

def ann4 : Nat → List Frame := fun j => [⟨j, [0, 3, 1, 5].getD j 0⟩]

def oracle9 : Nat → Nat → Bool := fun p s =>
  (p == 0 && s == 1) || (p == 1 && s == 3) || (p == 2 && s == 2) || (p == 3 && s == 1)

/-- Witness for C9 at the spec scenario: 3 workers, 4 single-unit jobs
with attached counts [0, 3, 1, 5], threshold 2 — the completing run
reports 2 accepted units out of 4 processed, rate 50%. -/
theorem claim9_witness :
    (masterRunHF jobs4 ann4 2 10 4 oracle9 10).isSome = true ∧
    hitsOf (masterRunHF jobs4 ann4 2 10 4 oracle9 10)
      = ((collectedOf (masterRunHF jobs4 ann4 2 10 4 oracle9 10)).map
          ann4).flatten.countP (fun u => decide (2 ≤ u.nbPeak)) ∧
    hitsOf (masterRunHF jobs4 ann4 2 10 4 oracle9 10) = 2 ∧
    framesOf (masterRunHF jobs4 ann4 2 10 4 oracle9 10) = 4 ∧
    rateOf (masterRunHF jobs4 ann4 2 10 4 oracle9 10) = 50 := by
  have h := claim9_accepted_counts jobs4 ann4 2 10 4 oracle9 10 rfl
  have hh : hitsOf (masterRunHF jobs4 ann4 2 10 4 oracle9 10) = 2 := by decide
  have hf : framesOf (masterRunHF jobs4 ann4 2 10 4 oracle9 10) = 4 := by decide
  refine ⟨rfl, h.1, hh, hf, ?_⟩
  rw [h.2.2, hh, hf]
  norm_num

/-- Snapshot bookkeeping invariant: the snapshots written so far are
exactly those pass ends whose dispatched-job count was a multiple of the
update frequency, and each carries the percentage and rate formulas of
lines 87-91. -/
def snapInv (updateFreq nbJobs : Nat) (st : MState) : Prop :=
  st.snapshots.map Snap.jobIdAt
      = st.passEnds.filter (fun j => decide (j % updateFreq = 0)) ∧
  ∀ sn ∈ st.snapshots,
    sn.pct = (sn.jobIdAt : Rat) / (nbJobs : Rat) * 100 ∧
    sn.rate = (sn.hits : Rat) / (sn.frames : Rat) * 100 ∧
    0 < sn.frames ∧ sn.hits ≤ sn.frames

theorem snapStep_snapInv (minPeak updateFreq nbJobs : Nat) (st st' : MState)
    (hP : snapInv updateFreq nbJobs st)
    (h : snapStep minPeak updateFreq nbJobs st = some st') :
    snapInv updateFreq nbJobs st' := by
  obtain ⟨hmap, hcont⟩ := hP
  unfold snapStep at h
  split at h
  · cases h
  · split at h
    case _ hmod =>
      split at h
      · cases h
      · split at h
        · cases h
        case _ hres =>
          cases h
          constructor
          · simp only [snapAdd, passEndMark, mkSnap, List.map_append, List.map_cons,
              List.map_nil, List.filter_append]
            rw [hmap]
            congr 1
            simp [List.filter_cons, hmod]
          · intro sn hsn
            simp only [snapAdd, passEndMark, List.mem_append, List.mem_singleton] at hsn
            rcases hsn with hsn | hsn
            · exact hcont sn hsn
            · subst hsn
              refine ⟨rfl, rfl, ?_, ?_⟩
              · simp only [mkSnap, passEndMark]
                omega
              · exact List.countP_le_length _
    case _ hmod =>
      cases h
      constructor
      · simp only [passEndMark, List.filter_append]
        rw [hmap]
        simp [List.filter_cons, hmod]
      · intro sn hsn
        exact hcont sn hsn

/-- Claim C8 as amended: in every completing run, a snapshot is persisted
at the end of each steady-state polling pass whose dispatched-job count is
then a multiple of the update frequency — exactly those and no others (so
a multiple crossed in the middle of a pass, when several workers were
refilled in one pass, gets no snapshot) — with percentage =
dispatched/total jobs and counts computed from the aggregate received so
far. -/
theorem claim8_amended (jobs : List (List Frame)) (ann : Nat → List Frame)
    (minPeak updateFreq size : Nat) (oracle : Nat → Nat → Bool) (fuel : Nat)
    (h : (masterRunHF jobs ann minPeak updateFreq size oracle fuel).isSome = true) :
    snapIdsOf (masterRunHF jobs ann minPeak updateFreq size oracle fuel)
      = (passEndsOf (masterRunHF jobs ann minPeak updateFreq size oracle fuel)).filter
          (fun j => decide (j % updateFreq = 0)) ∧
    ∀ sn ∈ snapsOf (masterRunHF jobs ann minPeak updateFreq size oracle fuel),
      sn.pct = (sn.jobIdAt : Rat) / (jobs.length : Rat) * 100 ∧
      sn.rate = (sn.hits : Rat) / (sn.frames : Rat) * 100 ∧
      0 < sn.frames ∧ sn.hits ≤ sn.frames := by
  obtain ⟨⟨st, fs⟩, hrun⟩ := Option.isSome_iff_exists.mp h
  obtain ⟨st0, p1, st1, hsat, hloop, hdrain, hfin⟩ :=
    masterRunHF_eq_some jobs ann minPeak updateFreq size oracle fuel st fs hrun
  have hd : ∀ (sl : Nat) (stx : MState), snapInv updateFreq jobs.length stx →
      snapInv updateFreq jobs.length (dispatchTo sl stx) := by
    intro sl stx hP
    simpa [snapInv, dispatchTo] using hP
  have h1 : ∀ (sl j : Nat) (stx : MState), snapInv updateFreq jobs.length stx →
      snapInv updateFreq jobs.length (dispatchTo sl (steadyCollect ann sl j stx)) := by
    intro sl j stx hP
    simpa [snapInv, dispatchTo, steadyCollect] using hP
  have h2 : ∀ (sl j : Nat) (stx : MState), snapInv updateFreq jobs.length stx →
      snapInv updateFreq jobs.length (steadyStopMark sl (steadyCollect ann sl j stx)) := by
    intro sl j stx hP
    simpa [snapInv, steadyStopMark, steadyCollect] using hP
  have hc : ∀ (sl j : Nat) (stx : MState), snapInv updateFreq jobs.length stx →
      snapInv updateFreq jobs.length (drainCollect ann sl j stx) := by
    intro sl j stx hP
    simpa [snapInv, drainCollect, steadyStopMark, steadyCollect] using hP
  have hinit : snapInv updateFreq jobs.length initState := by
    constructor
    · simp [initState]
    · intro sn hsn
      simp [initState] at hsn
  have hst0 : snapInv updateFreq jobs.length st0 :=
    satHF_pres jobs.length (snapInv updateFreq jobs.length) hd
      (slavesOf size) initState st0 hinit hsat
  have hst1 : snapInv updateFreq jobs.length st1 := by
    refine steadyLoopHF_pres ann oracle minPeak updateFreq jobs.length (slavesOf size)
      (snapInv updateFreq jobs.length) ?_ ?_ fuel 0 st0 (p1, st1) hst0 hloop
    · intro p stx st' hP hpass
      exact steadyPassHF_pres ann oracle jobs.length p (snapInv updateFreq jobs.length)
        h1 h2 (slavesOf size) stx st' hP hpass
    · intro stx st' hP hsnap
      exact snapStep_snapInv minPeak updateFreq jobs.length stx st' hP hsnap
  have hst2 : snapInv updateFreq jobs.length st :=
    drainLoopHF_pres ann oracle (snapInv updateFreq jobs.length) hc fuel p1
      (slavesOf size) st1 st hst1 hdrain
  rw [hrun]
  simp only [snapIdsOf, snapsOf, passEndsOf]
  exact hst2

def jobs5 : List (List Frame) :=
  [[⟨0, 0⟩], [⟨1, 0⟩], [⟨2, 0⟩], [⟨3, 0⟩], [⟨4, 0⟩]]

def ann5 : Nat → List Frame := fun j => [⟨j, j⟩]

def oracle8 : Nat → Nat → Bool := fun p s =>
  (p == 0 && (s == 1 || s == 2)) || (p == 1 && s == 3) || (p == 2 && s == 2) ||
    (p == 3 && s == 1)

/-- Claim C8 counterexample: the claim says NO multiple of the update
frequency is skipped.  With 3 workers, 5 jobs and update frequency 2,
workers 1 and 2 both complete in the first steady polling pass, so the
dispatched count jumps from 3 to 5 within one pass; the check at the end
of the pass sees 5, so the multiple 4 — reached and passed — never gets a
snapshot: the run completes with dispatched count 5 and an empty snapshot
list. -/
theorem claim8_counterexample :
    (masterRunHF jobs5 ann5 0 2 4 oracle8 10).isSome = true ∧
    4 % 2 = 0 ∧
    4 ≤ jobIdOf (masterRunHF jobs5 ann5 0 2 4 oracle8 10) ∧
    snapIdsOf (masterRunHF jobs5 ann5 0 2 4 oracle8 10) = [] := by
  refine ⟨rfl, rfl, by decide, by decide⟩

def oracle8w : Nat → Nat → Bool := fun p s =>
  (p == 0 && s == 1) || (p == 1 && s == 2) || (p == 2 && s == 2) || (p == 3 && s == 1)

/-- Witness for the amended C8 on a completing run that does write a
snapshot: 2 workers, 4 jobs, update frequency 2 — pass ends see dispatched
counts 3 and 4, and exactly the multiple 4 is snapshotted. -/
theorem claim8_witness :
    (masterRunHF jobs4 ann4 2 2 3 oracle8w 10).isSome = true ∧
    snapIdsOf (masterRunHF jobs4 ann4 2 2 3 oracle8w 10)
      = (passEndsOf (masterRunHF jobs4 ann4 2 2 3 oracle8w 10)).filter
          (fun j => decide (j % 2 = 0)) ∧
    snapIdsOf (masterRunHF jobs4 ann4 2 2 3 oracle8w 10) = [4] ∧
    passEndsOf (masterRunHF jobs4 ann4 2 2 3 oracle8w 10) = [3, 4] := by
  have h := claim8_amended jobs4 ann4 2 2 3 oracle8w 10 rfl
  exact ⟨rfl, h.1, by decide, by decide⟩

end SFX

